import Mathlib

/-!
# File Integrity System — verification of the specified behaviour

A shallow embedding of the File_Integrity_System repository: the content
hasher, the verification engine (upload / download / verify / delete), the
stats aggregator, the client auth store and the HTTP 401 interceptor, with
theorems settling the frozen claims about them.

The repository ships the Next.js frontend (`src/frontend/...`) and the
README; the Python backend (hashing, blob storage, audit log, engine) is
documented by the specification and by the frontend interfaces that consume
its responses.  Backend components are therefore modelled from the spec,
with record shapes and field names taken from the in-repository TypeScript
interfaces wherever those declare them.
-/

namespace FileIntegrity

/-! ## ContentHasher

Modelled from the spec: §4.1 "produce a 256-bit digest (hex-encoded, 64
characters) using a fixed cryptographic hash algorithm", which the README
fixes as SHA-256 ("SHA-256 - Cryptographic hashing for file integrity").
The backend hashing code is not among the repository files present, so the
full SHA-256 (FIPS 180-4) over a byte list is given here.  Bytes are `Nat`
values below 256; words are `Nat` values reduced mod 2^32 explicitly. -/

/-- Reduce a `Nat` to a 32-bit word. -/
def w32 (n : Nat) : Nat := n % 4294967296

/-- Right rotation of a 32-bit word by `n` places. -/
def rotr32 (n x : Nat) : Nat := w32 ((x >>> n) ||| (x <<< (32 - n)))

/-- SHA-256 big sigma-0. -/
def bsig0 (x : Nat) : Nat := (rotr32 2 x) ^^^ (rotr32 13 x) ^^^ (rotr32 22 x)

/-- SHA-256 big sigma-1. -/
def bsig1 (x : Nat) : Nat := (rotr32 6 x) ^^^ (rotr32 11 x) ^^^ (rotr32 25 x)

/-- SHA-256 small sigma-0. -/
def ssig0 (x : Nat) : Nat := (rotr32 7 x) ^^^ (rotr32 18 x) ^^^ (x >>> 3)

/-- SHA-256 small sigma-1. -/
def ssig1 (x : Nat) : Nat := (rotr32 17 x) ^^^ (rotr32 19 x) ^^^ (x >>> 10)

/-- SHA-256 choose function (the complement of `x` is `x ^^^ 2^32-1`). -/
def ch (x y z : Nat) : Nat := (x &&& y) ^^^ ((x ^^^ 4294967295) &&& z)

/-- SHA-256 majority function. -/
def maj (x y z : Nat) : Nat := (x &&& y) ^^^ (x &&& z) ^^^ (y &&& z)

/-- The 64 SHA-256 round constants (FIPS 180-4 §4.2.2, in decimal). -/
def k256 : List Nat :=
  [1116352408, 1899447441, 3049323471, 3921009573, 961987163, 1508970993,
   2453635748, 2870763221, 3624381080, 310598401, 607225278, 1426881987,
   1925078388, 2162078206, 2614888103, 3248222580, 3835390401, 4022224774,
   264347078, 604807628, 770255983, 1249150122, 1555081692, 1996064986,
   2554220882, 2821834349, 2952996808, 3210313671, 3336571891, 3584528711,
   113926993, 338241895, 666307205, 773529912, 1294757372, 1396182291,
   1695183700, 1986661051, 2177026350, 2456956037, 2730485921, 2820302411,
   3259730800, 3345764771, 3516065817, 3600352804, 4094571909, 275423344,
   430227734, 506948616, 659060556, 883997877, 958139571, 1322822218,
   1537002063, 1747873779, 1955562222, 2024104815, 2227730452, 2361852424,
   2428436474, 2756734187, 3204031479, 3329325298]

/-- Running hash state: the eight 32-bit working variables. -/
structure Hash8 where
  a : Nat
  b : Nat
  c : Nat
  d : Nat
  e : Nat
  f : Nat
  g : Nat
  h : Nat
deriving Repr, DecidableEq

/-- The SHA-256 initial hash value (FIPS 180-4 §5.3.3, in decimal). -/
def initH : Hash8 :=
  ⟨1779033703, 3144134277, 1013904242, 2773480762,
   1359893119, 2600822924, 528734635, 1541459225⟩

/-- SHA-256 padding: append `0x80`, zeros to 56 mod 64, and the 64-bit
big-endian bit length. -/
def padMessage (msg : List Nat) : List Nat :=
  let L := msg.length
  let zeros := (64 + 56 - ((L + 1) % 64)) % 64
  let bits := 8 * L
  msg ++ [0x80] ++ List.replicate zeros 0 ++
    [(bits >>> 56) &&& 255, (bits >>> 48) &&& 255, (bits >>> 40) &&& 255,
     (bits >>> 32) &&& 255, (bits >>> 24) &&& 255, (bits >>> 16) &&& 255,
     (bits >>> 8) &&& 255, bits &&& 255]

/-- Group a byte list into big-endian 32-bit words. -/
def toWords : List Nat → List Nat
  | a :: b :: c :: d :: rest => (((a * 256 + b) * 256 + c) * 256 + d) :: toWords rest
  | _ => []

/-- Split a byte list into 64-byte blocks; the fuel bounds the number of
blocks and is set to the list's length, which always suffices. -/
def chunksAux : Nat → List Nat → List (List Nat)
  | 0, _ => []
  | _, [] => []
  | fuel + 1, a :: rest => (a :: List.take 63 rest) :: chunksAux fuel (List.drop 63 rest)

/-- Split a byte list into 64-byte blocks. -/
def chunks64 (l : List Nat) : List (List Nat) := chunksAux l.length l

/-- Extend the 16 words of one block to the 64-entry message schedule. -/
def extendSchedule (w0 : Array Nat) : Array Nat :=
  (List.range 48).foldl
    (fun w i =>
      w.push (w32 (ssig1 (w.getD (i + 14) 0) + w.getD (i + 9) 0 +
                   ssig0 (w.getD (i + 1) 0) + w.getD i 0)))
    w0

/-- One SHA-256 compression round; `kw` is the round constant plus the
schedule word. -/
def round (s : Hash8) (kw : Nat) : Hash8 :=
  let t1 := w32 (s.h + bsig1 s.e + ch s.e s.f s.g + kw)
  let t2 := w32 (bsig0 s.a + maj s.a s.b s.c)
  ⟨w32 (t1 + t2), s.a, s.b, s.c, w32 (s.d + t1), s.e, s.f, s.g⟩

/-- Compress one 64-byte block into the running hash state. -/
def compressBlock (s : Hash8) (block : List Nat) : Hash8 :=
  let w := extendSchedule (toWords block).toArray
  let kw := (List.range 64).map (fun i => w32 (k256.getD i 0 + w.getD i 0))
  let t := kw.foldl round s
  ⟨w32 (s.a + t.a), w32 (s.b + t.b), w32 (s.c + t.c), w32 (s.d + t.d),
   w32 (s.e + t.e), w32 (s.f + t.f), w32 (s.g + t.g), w32 (s.h + t.h)⟩

/-- SHA-256 of a byte list, as the eight final words. -/
def sha256words (msg : List Nat) : Hash8 :=
  (chunks64 (padMessage msg)).foldl compressBlock initH

/-- Lowercase hex digit for a value below 16. -/
def hexDigit (n : Nat) : Char :=
  if n < 10 then Char.ofNat (48 + n) else Char.ofNat (87 + n)

/-- A 32-bit word as exactly eight lowercase hex characters. -/
def hex8 (x : Nat) : String :=
  String.mk
    [hexDigit ((x >>> 28) &&& 15), hexDigit ((x >>> 24) &&& 15),
     hexDigit ((x >>> 20) &&& 15), hexDigit ((x >>> 16) &&& 15),
     hexDigit ((x >>> 12) &&& 15), hexDigit ((x >>> 8) &&& 15),
     hexDigit ((x >>> 4) &&& 15), hexDigit (x &&& 15)]

/-- Hex-encoded SHA-256 digest of a byte list: the hasher's contract from
§4.1 of the spec, README "automatic SHA-256 hash generation". -/
def sha256hex (msg : List Nat) : String :=
  let s := sha256words msg
  hex8 s.a ++ hex8 s.b ++ hex8 s.c ++ hex8 s.d ++
  hex8 s.e ++ hex8 s.f ++ hex8 s.g ++ hex8 s.h

/-- Byte list of an ASCII string, for concrete scenarios. -/
def strBytes (s : String) : List Nat := s.data.map Char.toNat

/-! ## Data model

Record shapes follow the TypeScript interfaces the repository declares:
`FileItem` in `src/frontend/src/components/FileList.tsx` (lines 18-30) and
`src/frontend/src/app/files/page.tsx` (lines 8-20), and `DashboardStats`
in `src/frontend/src/app/dashboard/page.tsx` (lines 17-24).  Timestamps are
modelled as `Nat` ticks of a logical clock. -/

/-- The verification status a `FileItem` can display.  `FileList.tsx`
(lines 159-171) renders `is_verified ? "Verified" : "Corrupted"`: the
record's state is the boolean field `is_verified`, giving exactly these two
presentations. -/
inductive VerificationDisplay where
  | verified
  | corrupted
deriving Repr, DecidableEq

instance : Fintype VerificationDisplay :=
  ⟨{.verified, .corrupted}, by intro x; cases x <;> simp⟩

/-- The three-valued state space named by the spec (§4.4), kept for
comparison with the code's representation. -/
inductive SpecVerificationState where
  | Unverified
  | Verified
  | Corrupted
deriving Repr, DecidableEq

/-- Rendering of the stored boolean as in `FileList.tsx` lines 159-171. -/
def renderState (is_verified : Bool) : VerificationDisplay :=
  if is_verified then .verified else .corrupted

/-- One stored file; fields and names follow the `FileItem` interface
(`filename` is the opaque stored name, the BlobStore handle; `sha256_hash`
is the baseline digest). -/
structure FileRecord where
  id : Nat
  owner_id : Nat
  filename : String
  original_filename : String
  file_size : Nat
  content_type : Option String
  sha256_hash : String
  is_verified : Bool
  upload_count : Nat
  download_count : Nat
  created_at : Nat
  last_verified_at : Option Nat
deriving Repr, DecidableEq

/-- The kind of integrity check, spec §3: `check_type` ∈ {upload, download,
manual}. -/
inductive CheckType where
  | upload
  | download
  | manual
deriving Repr, DecidableEq

/-- One audit entry, spec §3 and §6: IntegrityCheck row = {id, file_id,
check_type, observed_digest, is_valid, checked_at}. -/
structure IntegrityCheck where
  id : Nat
  file_id : Nat
  check_type : CheckType
  observed_digest : String
  is_valid : Bool
  checked_at : Nat
deriving Repr, DecidableEq

/-- The error taxonomy of spec §7 (the part the engine itself raises). -/
inductive EngineError where
  | NotFound
  | SizeLimitExceeded
  | IOError
  | StorageCorruption
deriving Repr, DecidableEq

/-- Whole engine state: file records, blob storage keyed by handle, the
append-only audit log (oldest first), and id/clock counters. -/
structure EngineState where
  files : List FileRecord
  blobs : List (String × List Nat)
  checks : List IntegrityCheck
  nextFileId : Nat
  nextCheckId : Nat
  clock : Nat
deriving Repr, DecidableEq

/-- The empty engine state. -/
def emptyState : EngineState :=
  { files := [], blobs := [], checks := [], nextFileId := 1, nextCheckId := 1, clock := 0 }

/-- Look a file up by id and owner; spec §4.4: absent and not-owned are
both `NotFound`. -/
def findFile (st : EngineState) (fid owner : Nat) : Option FileRecord :=
  st.files.find? (fun f => f.id == fid && f.owner_id == owner)

/-- Retrieve stored bytes by handle (spec §4.2 `retrieve`). -/
def blobLookup (st : EngineState) (handle : String) : Option (List Nat) :=
  (st.blobs.find? (fun b => b.1 == handle)).map (fun b => b.2)

/-- The audit entries of one file, oldest first (spec §4.3 `history`). -/
def checksFor (st : EngineState) (fid : Nat) : List IntegrityCheck :=
  st.checks.filter (fun c => c.file_id == fid)

/-- The most recent audit entry of one file. -/
def lastCheck (st : EngineState) (fid : Nat) : Option IntegrityCheck :=
  st.checks.reverse.find? (fun c => c.file_id == fid)

/-- The default size limit: spec §6 "`sizeLimit` (default 10 MiB)", README
`MAX_FILE_SIZE` 10485760. -/
def sizeLimitDefault : Nat := 10485760

/-! ## VerificationEngine

Modelled from the spec: §4.4's operation contracts and transition table,
§4.2's BlobStore and §4.3's AuditLog, whose backend implementation is not
among the repository files present.  Every operation returns its result (or
error) together with the successor state. -/

/-- Upload (spec §4.4): reject streams over the size limit before
committing anything; otherwise compute the digest, store the bytes under a
fresh opaque handle, create the record `Verified`, and append one `upload`
audit entry. -/
def upload (owner : Nat) (fname : String) (ctype : Option String)
    (bytes : List Nat) (limit : Nat) (st : EngineState) :
    Except EngineError FileRecord × EngineState :=
  if bytes.length > limit then (.error .SizeLimitExceeded, st)
  else
    let digest := sha256hex bytes
    let handle := "blob-" ++ toString st.nextFileId
    let rec0 : FileRecord :=
      { id := st.nextFileId, owner_id := owner, filename := handle,
        original_filename := fname, file_size := bytes.length,
        content_type := ctype, sha256_hash := digest, is_verified := true,
        upload_count := 1, download_count := 0, created_at := st.clock,
        last_verified_at := some st.clock }
    let chk : IntegrityCheck :=
      { id := st.nextCheckId, file_id := st.nextFileId, check_type := .upload,
        observed_digest := digest, is_valid := true, checked_at := st.clock }
    (.ok rec0,
     { st with files := st.files ++ [rec0],
               blobs := st.blobs ++ [(handle, bytes)],
               checks := st.checks ++ [chk],
               nextFileId := st.nextFileId + 1,
               nextCheckId := st.nextCheckId + 1,
               clock := st.clock + 1 })

/-- Recompute-and-compare step shared by download and verify (spec §4.4):
update `is_verified` from the fresh comparison and append one audit entry
of the given type; a mismatch is a normal result, never an error. -/
def recheck (f : FileRecord) (bytes : List Nat) (ty : CheckType) (st : EngineState) :
    IntegrityCheck × EngineState :=
  let observed := sha256hex bytes
  let valid := observed == f.sha256_hash
  let chk : IntegrityCheck :=
    { id := st.nextCheckId, file_id := f.id, check_type := ty,
      observed_digest := observed, is_valid := valid, checked_at := st.clock }
  let bump := fun (g : FileRecord) =>
    if g.id == f.id then
      { g with is_verified := valid,
               last_verified_at := some st.clock,
               download_count := if ty == .download then g.download_count + 1
                                 else g.download_count }
    else g
  (chk, { st with files := st.files.map bump,
                  checks := st.checks ++ [chk],
                  nextCheckId := st.nextCheckId + 1,
                  clock := st.clock + 1 })

/-- Download (spec §4.4): `NotFound` when absent or not owned,
`StorageCorruption` when the bytes are missing entirely; otherwise return
the stored bytes — even when corrupted — together with the fresh audit
entry. -/
def download (fid owner : Nat) (st : EngineState) :
    Except EngineError (List Nat × IntegrityCheck) × EngineState :=
  match findFile st fid owner with
  | none => (.error .NotFound, st)
  | some f =>
    match blobLookup st f.filename with
    | none => (.error .StorageCorruption, st)
    | some bytes =>
      (.ok (bytes, (recheck f bytes .download st).1), (recheck f bytes .download st).2)

/-- Manual verify (spec §4.4): same lookup semantics as download; re-reads
the full content and reports the comparison. -/
def verify (fid owner : Nat) (st : EngineState) :
    Except EngineError IntegrityCheck × EngineState :=
  match findFile st fid owner with
  | none => (.error .NotFound, st)
  | some f =>
    match blobLookup st f.filename with
    | none => (.error .StorageCorruption, st)
    | some bytes =>
      (.ok (recheck f bytes .manual st).1, (recheck f bytes .manual st).2)

/-- Delete (spec §4.4): remove the blob, the record and the whole audit
history of the file; `NotFound` when absent or not owned. -/
def deleteFile (fid owner : Nat) (st : EngineState) :
    Except EngineError Unit × EngineState :=
  match findFile st fid owner with
  | none => (.error .NotFound, st)
  | some f =>
    (.ok (),
     { st with files := st.files.filter (fun g => g.id != f.id),
               blobs := st.blobs.filter (fun b => b.1 != f.filename),
               checks := st.checks.filter (fun c => c.file_id != f.id) })

/-! ## StatsAggregator -/

/-- Dashboard summary record; fields and names are exactly those of the
`DashboardStats` interface in `src/frontend/src/app/dashboard/page.tsx`
lines 17-24 (`recent_checks: any[]`, consumed there as integrity-check
records). -/
structure DashboardStats where
  total_files : Nat
  total_size : Nat
  verified_files : Nat
  corrupted_files : Nat
  total_downloads : Nat
  recent_checks : List IntegrityCheck
deriving Repr, DecidableEq

/-- The field names of the `DashboardStats` interface as declared in
`src/frontend/src/app/dashboard/page.tsx` lines 17-24, in declaration
order. -/
def dashboardStatsFieldNames : List String :=
  ["total_files", "total_size", "verified_files", "corrupted_files",
   "total_downloads", "recent_checks"]

/-- The field names the spec's §4.5 sentence gives for the same record
(`dashboardStats(ownerId) -> {total_files, total_size_bytes,
verified_count, corrupted_count, total_downloads, recent_checks[N]}`),
written down for comparison with the declared ones. -/
def specDashboardFieldNames : List String :=
  ["total_files", "total_size_bytes", "verified_count", "corrupted_count",
   "total_downloads", "recent_checks"]

/-- The files of one owner. -/
def ownerFiles (st : EngineState) (owner : Nat) : List FileRecord :=
  st.files.filter (fun f => f.owner_id == owner)

/-- Bound on the `recent_checks` feed (spec §4.5 `recent_checks[N]`, §4.3
`recent(limit, ownerId?)`). -/
def recentLimit : Nat := 10

/-- StatsAggregator (modelled from the spec: §4.5, its backend is not among
the repository files present): a read-only projection over the owner's
records and the audit tail, returning the record shape the dashboard page
declares. -/
def dashboardStats (owner : Nat) (st : EngineState) : DashboardStats :=
  let fs := ownerFiles st owner
  { total_files := fs.length,
    total_size := (fs.map (fun f => f.file_size)).sum,
    verified_files := (fs.filter (fun f => f.is_verified)).length,
    corrupted_files := (fs.filter (fun f => !f.is_verified)).length,
    total_downloads := (fs.map (fun f => f.download_count)).sum,
    recent_checks :=
      ((st.checks.filter (fun c => fs.any (fun f => f.id == c.file_id))).reverse).take
        recentLimit }

/-! ## Engine operation words

One inductive word per engine call, for stating invariants over every
sequence of operations. -/

/-- One engine call with its arguments. -/
inductive Op where
  | upload (owner : Nat) (fname : String) (ctype : Option String)
           (bytes : List Nat) (limit : Nat)
  | download (fid owner : Nat)
  | verify (fid owner : Nat)
  | deleteFile (fid owner : Nat)
  | corrupt (handle : String) (newBytes : List Nat)

/-- Out-of-band alteration of stored bytes (spec §8 "if stored bytes are
altered out-of-band after upload"): replaces the blob under `handle`,
touching neither records nor audit log. -/
def corruptBlob (handle : String) (newBytes : List Nat) (st : EngineState) : EngineState :=
  { st with blobs := st.blobs.map (fun b => if b.1 == handle then (b.1, newBytes) else b) }

/-- The successor state of one operation (errors leave the state as the
operation itself returned it, which for every failing call is unchanged). -/
def applyOp (st : EngineState) : Op → EngineState
  | .upload owner fname ctype bytes limit => (upload owner fname ctype bytes limit st).2
  | .download fid owner => (download fid owner st).2
  | .verify fid owner => (verify fid owner st).2
  | .deleteFile fid owner => (deleteFile fid owner st).2
  | .corrupt handle newBytes => corruptBlob handle newBytes st

/-- The state after a sequence of operations from the empty system. -/
def runOps (ops : List Op) : EngineState :=
  ops.foldl applyOp emptyState

/-! ## Client auth store

From `src/frontend/src/lib/store.ts` (`useAuthStore`, lines 23-81) and the
axios client in the same library file.  `set` merges a partial record into
the store, so untouched fields persist; that merge is written out
explicitly below.  `localStorage` is one more field of the client state. -/

/-- The authenticated user as the store holds it (`User` interface,
`store.ts` lines 4-10). -/
structure AuthUser where
  id : Nat
  email : String
  username : String
  is_active : Bool
  created_at : String
deriving Repr, DecidableEq

/-- The mutable fields of `useAuthStore` (`store.ts` lines 12-16). -/
structure AuthState where
  user : Option AuthUser
  token : Option String
  isLoading : Bool
  isAuthenticated : Bool
deriving Repr, DecidableEq

/-- Store plus the `token` key of `localStorage`. -/
structure ClientState where
  auth : AuthState
  lsToken : Option String
deriving Repr, DecidableEq

/-- Initial client state (`store.ts` lines 24-27): `token` is read from
`localStorage`, `isLoading` starts `true`, nobody is authenticated. -/
def initialClient (ls : Option String) : ClientState :=
  { auth := { user := none, token := ls, isLoading := true, isAuthenticated := false },
    lsToken := ls }

/-- One completed auth-store operation.  `login` carries the token and user
the two awaited API calls returned; `loginGetMeFailed` is a login whose
`getMe` threw after the token was already written to `localStorage`;
`register` completes without touching the store; `checkAuth` carries the
`getMe` outcome used when a token is present. -/
inductive AuthOp where
  | login (accessToken : String) (u : AuthUser)
  | loginGetMeFailed (accessToken : String)
  | register
  | logout
  | checkAuth (getMe : Option AuthUser)

/-- The client state after one completed operation, transcribed from
`store.ts` lines 29-80 (`set` merges, so unnamed fields keep their
values). -/
def applyAuthOp (st : ClientState) : AuthOp → ClientState
  | .login accessToken u =>
    { auth := { user := some u, token := some accessToken,
                isLoading := false, isAuthenticated := true },
      lsToken := some accessToken }
  | .loginGetMeFailed accessToken =>
    { st with lsToken := some accessToken }
  | .register => st
  | .logout =>
    { auth := { user := none, token := none,
                isLoading := false, isAuthenticated := false },
      lsToken := none }
  | .checkAuth getMe =>
    match st.lsToken with
    | none =>
      { st with auth := { st.auth with isLoading := false, isAuthenticated := false } }
    | some t =>
      match getMe with
      | some u =>
        { st with auth := { user := some u, token := some t,
                            isLoading := false, isAuthenticated := true } }
      | none =>
        { auth := { user := none, token := none,
                    isLoading := false, isAuthenticated := false },
          lsToken := none }

/-- The client state after a sequence of completed operations. -/
def runAuthOps (ls : Option String) (ops : List AuthOp) : ClientState :=
  ops.foldl applyAuthOp (initialClient ls)

/-! ## Response interceptor -/

/-- What the axios response-error interceptor leaves behind
(`src/frontend/src/lib/store.ts` library part, `api.interceptors.response`):
the `localStorage` token afterwards, where the browser was sent, and the
error it still rejects with. -/
structure InterceptOutcome where
  lsToken : Option String
  redirectedTo : Option String
  rejectedStatus : Option Nat
deriving Repr, DecidableEq

/-- The response-error interceptor in the browser: on status 401 it removes
the stored token and navigates to `/login`, and in every case it returns
`Promise.reject(error)` — transcribed from the interceptor's code. -/
def onResponseError (ls : Option String) (status : Option Nat) : InterceptOutcome :=
  if status == some 401 then
    { lsToken := none, redirectedTo := some "/login", rejectedStatus := status }
  else
    { lsToken := ls, redirectedTo := none, rejectedStatus := status }

/-! ## Helper lemmas -/

/-- Eight hex characters per word. -/
theorem hex8_length (x : Nat) : (hex8 x).length = 8 := rfl

/-- Every digest the hasher produces has 64 characters. -/
theorem sha256hex_len (msg : List Nat) : (sha256hex msg).length = 64 := by
  show (hex8 _ ++ hex8 _ ++ hex8 _ ++ hex8 _ ++ hex8 _ ++ hex8 _ ++ hex8 _ ++ hex8 _).length = 64
  simp [String.length_append, hex8_length]

/-- The lowercase hex alphabet. -/
def hexAlphabet : List Char := "0123456789abcdef".data

/-- Values below 16 map into the hex alphabet. -/
theorem hexDigit_mem_alphabet (n : Nat) (h : n < 16) : hexDigit n ∈ hexAlphabet := by
  interval_cases n <;> decide

/-- Every character of a `hex8` rendering is a hex digit. -/
theorem mem_hex8 (x : Nat) (c : Char) (h : c ∈ (hex8 x).data) : c ∈ hexAlphabet := by
  have h15 : ∀ y : Nat, y &&& 15 < 16 := fun y => Nat.and_lt_two_pow y (n := 4) (by norm_num)
  have h2 : c ∈ [hexDigit ((x >>> 28) &&& 15), hexDigit ((x >>> 24) &&& 15),
                 hexDigit ((x >>> 20) &&& 15), hexDigit ((x >>> 16) &&& 15),
                 hexDigit ((x >>> 12) &&& 15), hexDigit ((x >>> 8) &&& 15),
                 hexDigit ((x >>> 4) &&& 15), hexDigit (x &&& 15)] := h
  simp only [List.mem_cons, List.not_mem_nil, or_false] at h2
  rcases h2 with h2 | h2 | h2 | h2 | h2 | h2 | h2 | h2 <;>
    (rw [h2]; exact hexDigit_mem_alphabet _ (h15 _))

/-- Every character of a digest is a hex digit. -/
theorem sha256hex_chars (msg : List Nat) (c : Char) (h : c ∈ (sha256hex msg).data) :
    c ∈ hexAlphabet := by
  have hs :
      (sha256hex msg).data =
        (hex8 (sha256words msg).a).data ++ (hex8 (sha256words msg).b).data ++
        (hex8 (sha256words msg).c).data ++ (hex8 (sha256words msg).d).data ++
        (hex8 (sha256words msg).e).data ++ (hex8 (sha256words msg).f).data ++
        (hex8 (sha256words msg).g).data ++ (hex8 (sha256words msg).h).data := by
    show (hex8 _ ++ hex8 _ ++ hex8 _ ++ hex8 _ ++ hex8 _ ++ hex8 _ ++ hex8 _ ++ hex8 _).data = _
    simp [String.data_append]
  rw [hs] at h
  simp only [List.mem_append] at h
  rcases h with ((((((h | h) | h) | h) | h) | h) | h) | h
  all_goals exact mem_hex8 _ _ h

/-- The verified and the non-verified files partition a record list. -/
theorem length_filter_partition (l : List FileRecord) :
    (l.filter (fun f => f.is_verified)).length
      + (l.filter (fun f => !f.is_verified)).length = l.length := by
  induction l with
  | nil => rfl
  | cons a t ih =>
    cases ha : a.is_verified <;> simp [List.filter_cons, ha] <;> omega

/-! ## C1 — dashboard statistics record -/

/-- C1 counterexample: the field names the spec's §4.5 sentence gives for
the `dashboardStats` record differ from those the repository's own
`DashboardStats` interface declares (`total_size`, `verified_files`,
`corrupted_files` against the spec's `total_size_bytes`, `verified_count`,
`corrupted_count`). -/
theorem c1_dashboard_fields_counterexample :
    dashboardStatsFieldNames ≠ specDashboardFieldNames := by decide

/-- C1 (amended): for every owner, `dashboardStats` yields the record the
dashboard page declares — fields `total_files`, `total_size`,
`verified_files`, `corrupted_files`, `total_downloads`, `recent_checks` —
where the verified and corrupted counts partition the owner's files, the
recent-check feed is bounded by `recentLimit`, and every entry of the feed
is a real audit entry. -/
theorem c1_dashboardStats_record (owner : Nat) (st : EngineState) :
    (dashboardStats owner st).verified_files + (dashboardStats owner st).corrupted_files
        = (dashboardStats owner st).total_files ∧
    (dashboardStats owner st).recent_checks.length ≤ recentLimit ∧
    ∀ c ∈ (dashboardStats owner st).recent_checks, c ∈ st.checks := by
  refine ⟨?_, ?_, ?_⟩
  · simp only [dashboardStats]
    exact length_filter_partition (ownerFiles st owner)
  · simp only [dashboardStats]
    exact List.length_take_le _ _
  · intro c hc
    simp only [dashboardStats] at hc
    have h1 := List.take_subset _ _ hc
    rw [List.mem_reverse] at h1
    exact List.filter_subset' _ h1

/-! ## C2 — the hasher's digests -/

set_option maxRecDepth 100000 in
/-- C2 counterexample: the digest of the bytes `"abc"` is not the constant
the spec prints for it (`ba7816…015a`, 63 characters — the final `d` of the
true SHA-256 value is missing). -/
theorem c2_spec_constant_counterexample :
    sha256hex (strBytes "abc") ≠
      "ba7816bf8f01cfea414140de5dae2223b00361a396177a9cb410ff61f20015a" := by
  decide

set_option maxRecDepth 100000 in
/-- C2 (amended): uploading the bytes `"abc"` produces a baseline digest
equal to the SHA-256 of `"abc"`, which is
`ba7816bf8f01cfea414140de5dae2223b00361a396177a9cb410ff61f20015ad`, and
every digest the hasher produces is a 64-character hex encoding. -/
theorem c2_sha256_abc_and_hex :
    sha256hex (strBytes "abc") =
      "ba7816bf8f01cfea414140de5dae2223b00361a396177a9cb410ff61f20015ad" ∧
    ∀ msg : List Nat, (sha256hex msg).length = 64 ∧
      ∀ c ∈ (sha256hex msg).data, c ∈ hexAlphabet := by
  refine ⟨by decide, fun msg => ⟨sha256hex_len msg, fun c hc => sha256hex_chars msg c hc⟩⟩

/-! ## C3 — the verification state space -/

/-- C3 counterexample: the state a stored file can display has no three
distinct values — `FileList.tsx` renders the boolean `is_verified` as
`Verified` or `Corrupted` and nothing else, so "one of exactly three
states" fails. -/
theorem c3_three_states_counterexample :
    ¬ ∃ a b c : VerificationDisplay, a ≠ b ∧ a ≠ c ∧ b ≠ c := by decide

/-- C3 (amended): every FileRecord's verification state, as the code
represents and renders it, is one of exactly two states — Verified and
Corrupted — and every upload that completes creates its record in state
Verified. -/
theorem c3_two_states_upload_verified :
    (∀ f : FileRecord,
       renderState f.is_verified = .verified ∨ renderState f.is_verified = .corrupted) ∧
    (∀ (owner : Nat) (fname : String) (ctype : Option String) (bytes : List Nat)
       (limit : Nat) (st : EngineState) (r : FileRecord),
       (upload owner fname ctype bytes limit st).1 = .ok r →
       renderState r.is_verified = .verified) := by
  constructor
  · intro f
    cases hv : f.is_verified <;> simp [renderState]
  · intro owner fname ctype bytes limit st r hr
    unfold upload at hr
    by_cases hsz : bytes.length > limit
    · simp [hsz] at hr
    · simp only [hsz, if_false] at hr
      cases hr
      simp [renderState]

/-! ## C8 — size-limit rejection -/

/-- C8: an upload whose input exceeds the size limit fails with
`SizeLimitExceeded` and leaves the whole state unchanged — no FileRecord,
no blob, no audit entry comes into being. -/
theorem c8_upload_size_limit (owner : Nat) (fname : String) (ctype : Option String)
    (bytes : List Nat) (limit : Nat) (st : EngineState)
    (h : bytes.length > limit) :
    (upload owner fname ctype bytes limit st).1 = .error .SizeLimitExceeded ∧
    (upload owner fname ctype bytes limit st).2 = st := by
  unfold upload
  simp [h]

/-- C8 witness: an 11-byte upload against a 10-byte limit is rejected with
`SizeLimitExceeded` and the empty system stays empty. -/
theorem c8_upload_size_limit_witness :
    (upload 1 "big.bin" none (List.replicate 11 0) 10 emptyState).1
        = .error .SizeLimitExceeded ∧
    (upload 1 "big.bin" none (List.replicate 11 0) 10 emptyState).2 = emptyState :=
  c8_upload_size_limit 1 "big.bin" none (List.replicate 11 0) 10 emptyState (by decide)

/-! ## C10 — the 401 interceptor -/

/-- C10: on every response with HTTP status 401, the interceptor removes
the stored token from localStorage and redirects to `/login`, while still
propagating the error; the removal and redirect happen before
`Promise.reject` returns the error to the caller. -/
theorem c10_interceptor_401 (ls : Option String) :
    (onResponseError ls (some 401)).lsToken = none ∧
    (onResponseError ls (some 401)).redirectedTo = some "/login" ∧
    (onResponseError ls (some 401)).rejectedStatus = some 401 := by
  refine ⟨?_, ?_, ?_⟩ <;> simp [onResponseError]

/-! ## C9 — the auth store invariant -/

/-- The auth-store invariant: authentication tracks a present user, an
authenticated store holds a token, and a present user implies a stored
localStorage token (the auxiliary fact that makes `checkAuth`'s no-token
branch safe). -/
def authInv (st : ClientState) : Prop :=
  st.auth.isAuthenticated = st.auth.user.isSome ∧
  (st.auth.isAuthenticated = true → st.auth.token.isSome = true) ∧
  (st.auth.user.isSome = true → st.lsToken.isSome = true)

/-- Every completed auth operation preserves the store invariant. -/
theorem authInv_step (st : ClientState) (op : AuthOp) (h : authInv st) :
    authInv (applyAuthOp st op) := by
  obtain ⟨h1, h2, h3⟩ := h
  cases op with
  | login accessToken u => exact ⟨rfl, fun _ => rfl, fun _ => rfl⟩
  | loginGetMeFailed accessToken =>
    exact ⟨h1, h2, fun _ => rfl⟩
  | register => exact ⟨h1, h2, h3⟩
  | logout => refine ⟨rfl, ?_, ?_⟩ <;> intro h4 <;> simp [applyAuthOp] at h4
  | checkAuth getMe =>
    cases hls : st.lsToken with
    | none =>
      have hu : st.auth.user.isSome = false := by
        cases hu2 : st.auth.user.isSome
        · rfl
        · have := h3 hu2
          rw [hls] at this
          simp at this
      simp only [applyAuthOp, hls]
      exact ⟨by simp [hu], by simp, fun h4 => by rw [hu] at h4; cases h4⟩
    | some t =>
      cases getMe with
      | some u => simp only [applyAuthOp, hls]; exact ⟨rfl, fun _ => rfl, fun _ => rfl⟩
      | none =>
        simp only [applyAuthOp, hls]
        refine ⟨rfl, ?_, ?_⟩ <;> intro h4 <;> simp at h4

/-- The invariant holds in the initial client state. -/
theorem authInv_initial (ls : Option String) : authInv (initialClient ls) :=
  ⟨rfl, by simp [initialClient], by simp [initialClient]⟩

/-- The invariant holds after any sequence of completed operations. -/
theorem authInv_run (ls : Option String) (ops : List AuthOp) :
    authInv (runAuthOps ls ops) := by
  have main : ∀ (l : List AuthOp) (st : ClientState), authInv st →
      authInv (l.foldl applyAuthOp st) := by
    intro l
    induction l with
    | nil => intro st h; exact h
    | cons op t ih => intro st h; exact ih _ (authInv_step st op h)
  exact main ops (initialClient ls) (authInv_initial ls)

/-- C9: after every sequence of completed auth-store operations (from the
initial state, through any mix of login, register, logout and checkAuth,
the failure branches included), `isAuthenticated` is true exactly when
`user` is non-null, and an authenticated store also holds a non-null
`token`. -/
theorem c9_auth_store_consistent (ls : Option String) (ops : List AuthOp) :
    (runAuthOps ls ops).auth.isAuthenticated = (runAuthOps ls ops).auth.user.isSome ∧
    ((runAuthOps ls ops).auth.isAuthenticated = true →
      (runAuthOps ls ops).auth.token.isSome = true) := by
  obtain ⟨h1, h2, _⟩ := authInv_run ls ops
  exact ⟨h1, h2⟩

/-! ## C5 — mismatch is a normal result -/

/-- C5: on a file whose stored bytes no longer hash to the baseline,
download and verify both succeed: download returns the corrupted bytes
through the `.ok` path together with a check whose `is_valid` is false,
and verify likewise delivers the mismatch as an ordinary result. -/
theorem c5_mismatch_normal_result (fid owner : Nat) (st : EngineState)
    (f : FileRecord) (bytes : List Nat)
    (hf : findFile st fid owner = some f)
    (hb : blobLookup st f.filename = some bytes)
    (hm : sha256hex bytes ≠ f.sha256_hash) :
    (∃ chk, (download fid owner st).1 = .ok (bytes, chk) ∧ chk.is_valid = false) ∧
    (∃ chk, (verify fid owner st).1 = .ok chk ∧ chk.is_valid = false) := by
  have hv : (sha256hex bytes == f.sha256_hash) = false := beq_eq_false_iff_ne.mpr hm
  constructor
  · refine ⟨(recheck f bytes .download st).1, ?_, ?_⟩
    · simp only [download, hf, hb]
    · simp [recheck, hv]
  · refine ⟨(recheck f bytes .manual st).1, ?_, ?_⟩
    · simp only [verify, hf, hb]
    · simp [recheck, hv]

/-- A concrete one-file system whose stored bytes (`"abd"`, i.e. 97 98
100) no longer match the record's baseline digest (the SHA-256 of
`"abc"`). -/
def corruptedOneFileState : EngineState :=
  { files := [{ id := 1, owner_id := 1, filename := "blob-1",
                original_filename := "a.txt", file_size := 3, content_type := none,
                sha256_hash := sha256hex [97, 98, 99], is_verified := true,
                upload_count := 1, download_count := 0, created_at := 0,
                last_verified_at := some 0 }],
    blobs := [("blob-1", [97, 98, 100])],
    checks := [{ id := 1, file_id := 1, check_type := .upload,
                 observed_digest := sha256hex [97, 98, 99], is_valid := true,
                 checked_at := 0 }],
    nextFileId := 2, nextCheckId := 2, clock := 1 }

set_option maxRecDepth 1000000 in
/-- C5 witness: in the concrete corrupted system, download hands back the
corrupted bytes with a failed check and verify reports the failure through
the success path. -/
theorem c5_mismatch_normal_result_witness :
    (∃ chk, (download 1 1 corruptedOneFileState).1 = .ok ([97, 98, 100], chk) ∧
       chk.is_valid = false) ∧
    (∃ chk, (verify 1 1 corruptedOneFileState).1 = .ok chk ∧ chk.is_valid = false) :=
  c5_mismatch_normal_result 1 1 corruptedOneFileState
    { id := 1, owner_id := 1, filename := "blob-1",
      original_filename := "a.txt", file_size := 3, content_type := none,
      sha256_hash := sha256hex [97, 98, 99], is_verified := true,
      upload_count := 1, download_count := 0, created_at := 0,
      last_verified_at := some 0 }
    [97, 98, 100] rfl rfl (by decide)

/-! ## C6 — deletion semantics -/

/-- Deleting an id that no lookup resolves fails with `NotFound`. -/
theorem deleteFile_notFound (fid owner : Nat) (st : EngineState)
    (h : findFile st fid owner = none) :
    (deleteFile fid owner st).1 = .error .NotFound := by
  unfold deleteFile
  rw [h]

/-- C6: deleting an existing owned file succeeds and removes the record,
the blob under the record's handle, and every audit entry of the file; a
second delete of the same id then fails with `NotFound` and no storage
error. -/
theorem c6_delete_cascades (fid owner : Nat) (st : EngineState) (f : FileRecord)
    (hf : findFile st fid owner = some f) :
    (deleteFile fid owner st).1 = .ok () ∧
    (∀ g ∈ (deleteFile fid owner st).2.files, g.id ≠ f.id) ∧
    (∀ b ∈ (deleteFile fid owner st).2.blobs, b.1 ≠ f.filename) ∧
    (∀ c ∈ (deleteFile fid owner st).2.checks, c.file_id ≠ f.id) ∧
    (deleteFile fid owner (deleteFile fid owner st).2).1 = .error .NotFound := by
  have hid : f.id = fid := by
    have := List.find?_some hf
    simp only [Bool.and_eq_true, beq_iff_eq] at this
    exact this.1
  refine ⟨?_, ?_, ?_, ?_, ?_⟩
  · unfold deleteFile
    rw [hf]
  · intro g hg
    simp only [deleteFile, hf, List.mem_filter, bne_iff_ne, ne_eq] at hg
    exact hg.2
  · intro b hb
    simp only [deleteFile, hf, List.mem_filter, bne_iff_ne, ne_eq] at hb
    exact hb.2
  · intro c hc
    simp only [deleteFile, hf, List.mem_filter, bne_iff_ne, ne_eq] at hc
    exact hc.2
  · have hnone : findFile (deleteFile fid owner st).2 fid owner = none := by
      apply List.find?_eq_none.mpr
      intro g hg
      simp only [deleteFile, hf, List.mem_filter, bne_iff_ne, ne_eq] at hg
      simp only [Bool.and_eq_true, beq_iff_eq, not_and]
      intro hgid
      rw [hid] at hg
      exact absurd hgid hg.2
    exact deleteFile_notFound fid owner (deleteFile fid owner st).2 hnone

/-- C6 witness: in the concrete one-file system, delete succeeds, leaves
no record, blob or audit entry of the file behind, and a second delete
returns `NotFound`. -/
theorem c6_delete_cascades_witness :
    (deleteFile 1 1 corruptedOneFileState).1 = .ok () ∧
    (∀ g ∈ (deleteFile 1 1 corruptedOneFileState).2.files, g.id ≠ 1) ∧
    (∀ b ∈ (deleteFile 1 1 corruptedOneFileState).2.blobs, b.1 ≠ "blob-1") ∧
    (∀ c ∈ (deleteFile 1 1 corruptedOneFileState).2.checks, c.file_id ≠ 1) ∧
    (deleteFile 1 1 (deleteFile 1 1 corruptedOneFileState).2).1 = .error .NotFound :=
  c6_delete_cascades 1 1 corruptedOneFileState
    { id := 1, owner_id := 1, filename := "blob-1",
      original_filename := "a.txt", file_size := 3, content_type := none,
      sha256_hash := sha256hex [97, 98, 99], is_verified := true,
      upload_count := 1, download_count := 0, created_at := 0,
      last_verified_at := some 0 }
    rfl

/-! ## C7 — verify idempotence and baseline immutability -/

/-- The identity-and-baseline view of a record: id, owner, storage handle
and baseline digest — everything `verify` must not disturb. -/
def baselineView (g : FileRecord) : Nat × Nat × String × String :=
  (g.id, g.owner_id, g.filename, g.sha256_hash)

/-- Repeated manual verification: the state after `n` verify calls. -/
def iterVerify (fid owner : Nat) : Nat → EngineState → EngineState
  | 0, st => st
  | n + 1, st => iterVerify fid owner n (verify fid owner st).2

/-- A `find?` over lists with the same projected view finds elements with
the same view, when the predicate only looks at the view. -/
theorem find?_congr_of_map_eq {α β : Type} (proj : α → β) (q : β → Bool) :
    ∀ (l l' : List α), l.map proj = l'.map proj →
      ((l.find? (fun a => q (proj a))).map proj
        = (l'.find? (fun a => q (proj a))).map proj) := by
  intro l
  induction l with
  | nil =>
    intro l' h
    cases l' with
    | nil => rfl
    | cons b t' => exact absurd h (by simp)
  | cons a t ih =>
    intro l' h
    cases l' with
    | nil => exact absurd h (by simp)
    | cons b t' =>
      simp only [List.map_cons, List.cons.injEq] at h
      obtain ⟨hab, ht⟩ := h
      cases hq : q (proj a) with
      | true =>
        rw [List.find?_cons_of_pos t (show (fun x => q (proj x)) a = true from hq),
            List.find?_cons_of_pos t'
              (show (fun x => q (proj x)) b = true from by
                show q (proj b) = true
                rw [show proj b = proj a from hab.symm]
                exact hq),
            Option.map_some', Option.map_some', hab]
      | false =>
        rw [List.find?_cons_of_neg t
              (show ¬ (fun x => q (proj x)) a = true from by simp [hq]),
            List.find?_cons_of_neg t'
              (show ¬ (fun x => q (proj x)) b = true from by
                show ¬ q (proj b) = true
                rw [show proj b = proj a from hab.symm]
                simp [hq])]
        exact ih t' ht

/-- The recheck step keeps every record's id, owner, handle and baseline,
and never touches the blobs. -/
theorem recheck_view (f : FileRecord) (bytes : List Nat) (ty : CheckType)
    (st : EngineState) :
    (recheck f bytes ty st).2.files.map baselineView = st.files.map baselineView ∧
    (recheck f bytes ty st).2.blobs = st.blobs := by
  constructor
  · simp only [recheck, List.map_map]
    apply List.map_congr_left
    intro g _
    simp only [Function.comp_apply]
    by_cases hg : (g.id == f.id) = true <;> simp [hg, baselineView]
  · rfl

/-- One verify call keeps every record's id, owner, handle and baseline,
and never touches the blobs. -/
theorem verify_view (fid owner : Nat) (st : EngineState) :
    (verify fid owner st).2.files.map baselineView = st.files.map baselineView ∧
    (verify fid owner st).2.blobs = st.blobs := by
  cases hf : findFile st fid owner with
  | none => simp [verify, hf]
  | some f =>
    cases hb : blobLookup st f.filename with
    | none => simp [verify, hf, hb]
    | some bytes =>
      simp only [verify, hf, hb]
      exact recheck_view f bytes .manual st

/-- Any number of verify calls keeps every record's id, owner, handle and
baseline, and never touches the blobs. -/
theorem iterVerify_view (fid owner : Nat) (n : Nat) :
    ∀ st : EngineState,
      (iterVerify fid owner n st).files.map baselineView = st.files.map baselineView ∧
      (iterVerify fid owner n st).blobs = st.blobs := by
  induction n with
  | zero => intro st; exact ⟨rfl, rfl⟩
  | succ m ih =>
    intro st
    have h1 := ih (verify fid owner st).2
    have h2 := verify_view fid owner st
    exact ⟨by rw [iterVerify, h1.1, h2.1], by rw [iterVerify, h1.2, h2.2]⟩

/-- Looking a file up only inspects the view, so states with the same view
resolve the same id to records with the same view. -/
theorem findFile_view (st st' : EngineState) (fid owner : Nat)
    (h : st'.files.map baselineView = st.files.map baselineView) :
    (findFile st' fid owner).map baselineView = (findFile st fid owner).map baselineView := by
  have hq :
      ∀ t : EngineState,
        findFile t fid owner
          = t.files.find? (fun g => (baselineView g).1 == fid && (baselineView g).2.1 == owner) :=
    fun t => rfl
  rw [hq st, hq st']
  exact find?_congr_of_map_eq baselineView
    (fun v => v.1 == fid && v.2.1 == owner) st'.files st.files h

set_option maxRecDepth 2000 in
/-- C7: on a file whose stored bytes still hash to the baseline, every
verify call — also after any number of earlier verify calls — returns
`is_valid = true`; no sequence of verify calls changes any record's
`baseline_digest` (nor its id, owner or handle) or the stored bytes; and
the baseline is set at upload to the digest computed there. -/
theorem c7_verify_idempotent_baseline_immutable (fid owner : Nat)
    (st : EngineState) (f : FileRecord) (bytes : List Nat) (n : Nat)
    (hf : findFile st fid owner = some f)
    (hb : blobLookup st f.filename = some bytes)
    (hmatch : sha256hex bytes = f.sha256_hash) :
    (∃ chk, (verify fid owner (iterVerify fid owner n st)).1 = .ok chk ∧
       chk.is_valid = true) ∧
    (iterVerify fid owner n st).files.map baselineView = st.files.map baselineView ∧
    (iterVerify fid owner n st).blobs = st.blobs ∧
    (∀ (owner2 : Nat) (fname : String) (ctype : Option String) (bytes2 : List Nat)
       (limit : Nat) (st2 : EngineState) (r : FileRecord),
       (upload owner2 fname ctype bytes2 limit st2).1 = .ok r →
       r.sha256_hash = sha256hex bytes2) := by
  obtain ⟨hview, hblobs⟩ := iterVerify_view fid owner n st
  refine ⟨?_, hview, hblobs, ?_⟩
  · have hmap := findFile_view st (iterVerify fid owner n st) fid owner hview
    rw [hf] at hmap
    cases hf2 : findFile (iterVerify fid owner n st) fid owner with
    | none => rw [hf2] at hmap; exact absurd hmap (by simp)
    | some f2 =>
      rw [hf2] at hmap
      simp only [Option.map_some', Option.some.injEq] at hmap
      have hfn : f2.filename = f.filename := congrArg (fun v => v.2.2.1) hmap
      have hhash : f2.sha256_hash = f.sha256_hash := congrArg (fun v => v.2.2.2) hmap
      have hb2 : blobLookup (iterVerify fid owner n st) f2.filename = some bytes := by
        show ((iterVerify fid owner n st).blobs.find? (fun b => b.1 == f2.filename)).map
              (fun b => b.2) = some bytes
        rw [hblobs, hfn]
        exact hb
      have hv : (sha256hex bytes == f2.sha256_hash) = true := by
        rw [hhash]
        exact beq_iff_eq.mpr hmatch
      refine ⟨(recheck f2 bytes .manual (iterVerify fid owner n st)).1, ?_, ?_⟩
      · simp only [verify, hf2, hb2]
      · simp [recheck, hv]
  · intro owner2 fname ctype bytes2 limit st2 r hr
    unfold upload at hr
    by_cases hsz : bytes2.length > limit
    · simp [hsz] at hr
    · simp only [hsz, if_false] at hr
      cases hr
      rfl

/-- A record whose stored bytes (`"abc"`) still hash to its baseline. -/
def matchingFile : FileRecord :=
  { id := 1, owner_id := 1, filename := "blob-1", original_filename := "a.txt",
    file_size := 3, content_type := none, sha256_hash := sha256hex [97, 98, 99],
    is_verified := true, upload_count := 1, download_count := 0, created_at := 0,
    last_verified_at := some 0 }

/-- A concrete one-file system whose stored bytes still match the
baseline. -/
def matchingOneFileState : EngineState :=
  { files := [matchingFile],
    blobs := [("blob-1", [97, 98, 99])],
    checks := [{ id := 1, file_id := 1, check_type := .upload,
                 observed_digest := sha256hex [97, 98, 99], is_valid := true,
                 checked_at := 0 }],
    nextFileId := 2, nextCheckId := 2, clock := 1 }

/-- C7 witness: in the concrete untouched system, the third verify call
(after two earlier ones) still returns `is_valid = true`, views and blobs
are unchanged, and uploads set the baseline to the computed digest. -/
theorem c7_verify_idempotent_witness :
    (∃ chk, (verify 1 1 (iterVerify 1 1 2 matchingOneFileState)).1 = .ok chk ∧
       chk.is_valid = true) ∧
    (iterVerify 1 1 2 matchingOneFileState).files.map baselineView
        = matchingOneFileState.files.map baselineView ∧
    (iterVerify 1 1 2 matchingOneFileState).blobs = matchingOneFileState.blobs ∧
    (∀ (owner2 : Nat) (fname : String) (ctype : Option String) (bytes2 : List Nat)
       (limit : Nat) (st2 : EngineState) (r : FileRecord),
       (upload owner2 fname ctype bytes2 limit st2).1 = .ok r →
       r.sha256_hash = sha256hex bytes2) :=
  c7_verify_idempotent_baseline_immutable 1 1 matchingOneFileState matchingFile
    [97, 98, 99] 2 rfl rfl rfl

/-! ## C4 — state agrees with the most recent check -/

/-- The most recent entry for a file within a plain audit list. -/
def lastOf (checks : List IntegrityCheck) (fid : Nat) : Option IntegrityCheck :=
  checks.reverse.find? (fun c => c.file_id == fid)

/-- `lastCheck` is `lastOf` on the state's audit list. -/
theorem lastCheck_eq_lastOf (st : EngineState) (fid : Nat) :
    lastCheck st fid = lastOf st.checks fid := rfl

/-- Filtering by a condition the sought elements all satisfy does not
change what `find?` returns. -/
theorem find?_filter_of_imp {α : Type} (p q : α → Bool)
    (h : ∀ a, p a = true → q a = true) :
    ∀ l : List α, (l.filter q).find? p = l.find? p := by
  intro l
  induction l with
  | nil => rfl
  | cons a t ih =>
    cases hq : q a with
    | true =>
      rw [List.filter_cons_of_pos hq]
      cases hp : p a with
      | true => rw [List.find?_cons_of_pos t hp, List.find?_cons_of_pos (t.filter q) hp]
      | false =>
        rw [List.find?_cons_of_neg t (by simp [hp]),
            List.find?_cons_of_neg (t.filter q) (by simp [hp]), ih]
    | false =>
      rw [List.filter_cons_of_neg (by simp [hq])]
      have hp : p a = false := by
        cases hpa : p a
        · rfl
        · rw [h a hpa] at hq; cases hq
      rw [List.find?_cons_of_neg t (by simp [hp]), ih]

/-- Appending one entry makes it the most recent for its file and leaves
every other file's most recent entry alone. -/
theorem lastOf_concat (l : List IntegrityCheck) (c : IntegrityCheck) (fid : Nat) :
    lastOf (l ++ [c]) fid = if c.file_id == fid then some c else lastOf l fid := by
  unfold lastOf
  have hrev : (l ++ [c]).reverse = c :: l.reverse := by
    simp
  rw [hrev]
  cases hc : (c.file_id == fid) with
  | true =>
    rw [if_pos rfl, List.find?_cons_of_pos l.reverse
      (show (fun x => x.file_id == fid) c = true from hc)]
  | false =>
    rw [if_neg (by simp), List.find?_cons_of_neg l.reverse
      (show ¬ (fun x => x.file_id == fid) c = true from by simp [hc])]

/-- Removing every entry of one file leaves every other file's most recent
entry alone. -/
theorem lastOf_filter_ne (l : List IntegrityCheck) (fid cut : Nat) (h : fid ≠ cut) :
    lastOf (l.filter (fun c => c.file_id != cut)) fid = lastOf l fid := by
  unfold lastOf
  rw [← List.filter_reverse]
  apply find?_filter_of_imp
  intro c hc
  simp only [beq_iff_eq] at hc
  simp [hc, h]

/-- Ids of live records stay below the id counter. -/
def idsBounded (st : EngineState) : Prop :=
  ∀ f ∈ st.files, f.id < st.nextFileId

/-- Every live record's `is_verified` equals the `is_valid` of its most
recent audit entry. -/
def stateConsistent (st : EngineState) : Prop :=
  ∀ f ∈ st.files, ∃ c, lastCheck st f.id = some c ∧ c.is_valid = f.is_verified

/-- The inductive invariant: fresh-id discipline plus consistency. -/
def engineInv (st : EngineState) : Prop :=
  idsBounded st ∧ stateConsistent st

/-- The empty system satisfies the invariant. -/
theorem engineInv_empty : engineInv emptyState :=
  ⟨fun f hf => absurd hf (by simp [emptyState]), fun f hf => absurd hf (by simp [emptyState])⟩

/-- Upload preserves the invariant: the new record is Verified and its
fresh upload entry is its most recent check; older files keep theirs. -/
theorem engineInv_upload (owner : Nat) (fname : String) (ctype : Option String)
    (bytes : List Nat) (limit : Nat) (st : EngineState) (h : engineInv st) :
    engineInv (upload owner fname ctype bytes limit st).2 := by
  obtain ⟨hids, hcons⟩ := h
  by_cases hsz : bytes.length > limit
  · unfold upload
    rw [if_pos hsz]
    exact ⟨hids, hcons⟩
  · unfold upload
    rw [if_neg hsz]
    constructor
    · intro f hf
      simp only [List.mem_append, List.mem_singleton] at hf
      rcases hf with hf | hf
      · exact Nat.lt_succ_of_lt (hids f hf)
      · rw [hf]
        exact Nat.lt_succ_self _
    · intro f hf
      simp only [List.mem_append, List.mem_singleton] at hf
      rw [lastCheck_eq_lastOf]
      show ∃ c, lastOf (st.checks ++ [_]) f.id = some c ∧ c.is_valid = f.is_verified
      rw [lastOf_concat]
      rcases hf with hf | hf
      · have hne : (st.nextFileId == f.id) = false := by
          simp only [beq_eq_false_iff_ne, ne_eq]
          exact fun he => absurd he.symm (Nat.ne_of_lt (hids f hf))
        rw [hne]
        simp only [Bool.false_eq_true, if_false]
        obtain ⟨c, hc1, hc2⟩ := hcons f hf
        exact ⟨c, by rw [← lastCheck_eq_lastOf]; exact hc1, hc2⟩
      · rw [hf]
        simp only [beq_self_eq_true, if_true]
        exact ⟨_, rfl, rfl⟩

/-- The recheck step preserves the invariant: the touched records flip to
exactly the fresh entry's validity, untouched records keep their most
recent entry. -/
theorem engineInv_recheck (f : FileRecord) (bytes : List Nat) (ty : CheckType)
    (st : EngineState) (h : engineInv st) :
    engineInv (recheck f bytes ty st).2 := by
  obtain ⟨hids, hcons⟩ := h
  constructor
  · intro g hg
    simp only [recheck, List.mem_map] at hg
    obtain ⟨g0, hg0, hgeq⟩ := hg
    show g.id < st.nextFileId
    have : g.id = g0.id := by
      rw [← hgeq]
      by_cases hid : (g0.id == f.id) = true <;> simp [hid]
    rw [this]
    exact hids g0 hg0
  · intro g hg
    simp only [recheck, List.mem_map] at hg
    obtain ⟨g0, hg0, hgeq⟩ := hg
    rw [lastCheck_eq_lastOf]
    show ∃ c, lastOf (st.checks ++ [_]) g.id = some c ∧ c.is_valid = g.is_verified
    rw [lastOf_concat]
    by_cases hid : (g0.id == f.id) = true
    · have hgid : g.id = f.id := by
        rw [← hgeq]
        simp [hid, beq_iff_eq.mp hid]
      have hgver : g.is_verified = (sha256hex bytes == f.sha256_hash) := by
        rw [← hgeq]
        simp [hid]
      rw [show (f.id == g.id) = true from by simp [hgid]]
      simp only [if_true]
      exact ⟨_, rfl, by rw [hgver]⟩
    · have hgeq2 : g = g0 := by rw [← hgeq]; simp [hid]
      have hgid : (f.id == g.id) = false := by
        simp only [beq_eq_false_iff_ne, ne_eq]
        intro he
        rw [hgeq2] at he
        exact hid (by simp [he.symm])
      rw [hgid]
      simp only [Bool.false_eq_true, if_false]
      obtain ⟨c, hc1, hc2⟩ := hcons g0 hg0
      rw [hgeq2]
      exact ⟨c, by rw [← lastCheck_eq_lastOf]; exact hc1, hc2⟩

/-- Download preserves the invariant. -/
theorem engineInv_download (fid owner : Nat) (st : EngineState) (h : engineInv st) :
    engineInv (download fid owner st).2 := by
  cases hf : findFile st fid owner with
  | none => simp only [download, hf]; exact h
  | some f =>
    cases hb : blobLookup st f.filename with
    | none => simp only [download, hf, hb]; exact h
    | some bytes =>
      simp only [download, hf, hb]
      exact engineInv_recheck f bytes .download st h

/-- Verify preserves the invariant. -/
theorem engineInv_verify (fid owner : Nat) (st : EngineState) (h : engineInv st) :
    engineInv (verify fid owner st).2 := by
  cases hf : findFile st fid owner with
  | none => simp only [verify, hf]; exact h
  | some f =>
    cases hb : blobLookup st f.filename with
    | none => simp only [verify, hf, hb]; exact h
    | some bytes =>
      simp only [verify, hf, hb]
      exact engineInv_recheck f bytes .manual st h

/-- Delete preserves the invariant: the file's records and audit entries
vanish together, other files keep their most recent entry. -/
theorem engineInv_delete (fid owner : Nat) (st : EngineState) (h : engineInv st) :
    engineInv (deleteFile fid owner st).2 := by
  obtain ⟨hids, hcons⟩ := h
  cases hf : findFile st fid owner with
  | none => simp only [deleteFile, hf]; exact ⟨hids, hcons⟩
  | some f =>
    simp only [deleteFile, hf]
    constructor
    · intro g hg
      simp only [List.mem_filter] at hg
      exact hids g hg.1
    · intro g hg
      simp only [List.mem_filter, bne_iff_ne, ne_eq] at hg
      obtain ⟨hg1, hg2⟩ := hg
      rw [lastCheck_eq_lastOf]
      show ∃ c, lastOf (st.checks.filter (fun c => c.file_id != f.id)) g.id = some c ∧
        c.is_valid = g.is_verified
      rw [lastOf_filter_ne st.checks g.id f.id hg2]
      obtain ⟨c, hc1, hc2⟩ := hcons g hg1
      exact ⟨c, by rw [← lastCheck_eq_lastOf]; exact hc1, hc2⟩

/-- Out-of-band byte corruption touches neither records nor audit log, so
the invariant survives (the state may now be stale against the bytes, which
is exactly what the next check detects). -/
theorem engineInv_corrupt (handle : String) (newBytes : List Nat) (st : EngineState)
    (h : engineInv st) : engineInv (corruptBlob handle newBytes st) :=
  h

/-- Every operation preserves the invariant. -/
theorem engineInv_step (st : EngineState) (op : Op) (h : engineInv st) :
    engineInv (applyOp st op) := by
  cases op with
  | upload owner fname ctype bytes limit => exact engineInv_upload owner fname ctype bytes limit st h
  | download fid owner => exact engineInv_download fid owner st h
  | verify fid owner => exact engineInv_verify fid owner st h
  | deleteFile fid owner => exact engineInv_delete fid owner st h
  | corrupt handle newBytes => exact engineInv_corrupt handle newBytes st h

/-- The invariant holds in every reachable state. -/
theorem engineInv_runOps (ops : List Op) : engineInv (runOps ops) := by
  have main : ∀ (l : List Op) (st : EngineState), engineInv st →
      engineInv (l.foldl applyOp st) := by
    intro l
    induction l with
    | nil => intro st h; exact h
    | cons op t ih => intro st h; exact ih _ (engineInv_step st op h)
  exact main ops emptyState engineInv_empty

/-- Every live record's displayed state matches its most recent check:
Verified exactly when `is_valid` is true. -/
def displayConsistent (st : EngineState) : Prop :=
  ∀ f ∈ st.files, ∃ c, lastCheck st f.id = some c ∧
    (renderState f.is_verified = .verified ↔ c.is_valid = true)

/-- C4: after every sequence of engine operations (upload, download,
manual verify, delete, and even out-of-band byte corruption), every file's
verification state agrees with the `is_valid` of the most recent
IntegrityCheck for that file — Verified exactly when `is_valid` is true. -/
theorem c4_state_matches_last_check (ops : List Op) :
    displayConsistent (runOps ops) := by
  intro f hf
  obtain ⟨c, hc1, hc2⟩ := (engineInv_runOps ops).2 f hf
  refine ⟨c, hc1, ?_⟩
  rw [hc2]
  cases f.is_verified <;> simp [renderState]

end FileIntegrity
